import Mathlib

/-!
Verification of the KFP v2 DSL compiler core
(`sdk/python/kfp/v2/compiler/compiler.py`).

The development shallowly embeds the resolver and emitter fragments of the
compiler:

* the scope tree of ops-groups and ops, with the ancestor-path maps built by
  `_get_groups_for_ops` / `_get_groups_for_opsgroups`;
* `_get_uncommon_ancestors` (common-prefix computation over two ancestor
  paths, with the two-map lookup and its fatal error);
* the per-parameter input/output marking of `_get_inputs_outputs`
  (producer case and no-producer propagation walk with the loop boundary);
* the edge recording of `_get_dependencies` / `_get_dependency_opsgroup`;
* the emitter fragments `_resolve_value_or_reference`, the condition
  trigger-string construction, `_insert_loop_iterator_component`,
  `_update_loop_subgroup_specs`, and the sorted rendering of the
  `dependent_tasks` list in `_group_to_dag_spec`.

Python dictionaries keyed by strings are modelled as `String → Option _`
functions or association lists; Python sets are modelled as lists, and
properties about them are stated up to permutation or via membership, which
is insensitive to enumeration order.  Fallible code is modelled with
`Except String`, one error per `raise` site (`ValueError`, `KeyError`,
`IndexError`, `NotImplementedError`, `AssertionError`).
-/

namespace KFP

/-- A `dsl.PipelineParam` as used by the resolver: the sanitized name, the
optional immediate value (`param.value`; Python truthiness is modelled by
`Option.isSome`), and the optional producing-op name (`param.op_name`). -/
structure Param where
  name : String
  value : Option String
  op_name : Option String
deriving DecidableEq, Repr

/-- A `dsl.BaseOp` as seen by the resolver: sanitized name, declared inputs,
explicit dependency names (`op.dependent_names`) and the exit-handler flag. -/
structure Op where
  name : String
  inputs : List Param
  dependent_names : List String
  is_exit_handler : Bool
deriving DecidableEq, Repr

mutual
/-- The scope tree of `dsl.OpsGroup`s.  A group has a name, the
`recursive_ref` flag (alias groups), its own declared dependency names
(`group.dependencies`), its declared inputs (`group.inputs`, used for
recursive groups), the names of its direct child ops (`group.ops`) and its
direct child groups.  `Forest` is the list of children, kept as a mutual
inductive so that all traversals are structurally recursive. -/
inductive Group where
  | mk (name : String) (recursive_ref : Bool) (dependencies : List String)
       (inputs : List Param) (ops : List String) (children : Forest)
deriving DecidableEq, Repr
/-- The list of child groups of a `Group`. -/
inductive Forest where
  | nil : Forest
  | cons (g : Group) (gs : Forest) : Forest
deriving DecidableEq, Repr
end

def Group.name : Group → String
  | .mk n _ _ _ _ _ => n

def Group.recursive_ref : Group → Bool
  | .mk _ r _ _ _ _ => r

def Group.dependencies : Group → List String
  | .mk _ _ d _ _ _ => d

def Group.inputs : Group → List Param
  | .mk _ _ _ i _ _ => i

def Group.ops : Group → List String
  | .mk _ _ _ _ o _ => o

def Group.children : Group → Forest
  | .mk _ _ _ _ _ c => c

def Forest.toList : Forest → List Group
  | .nil => []
  | .cons g gs => g :: gs.toList

/-- The direct child groups of a group, as a list. -/
def Group.groups (g : Group) : List Group := g.children.toList

mutual
/-- All names occurring in a (sub)tree: the group's own name, its ops'
names, and recursively all names of its child groups.  Well-formed
pipelines have pairwise-distinct names (`allNames.Nodup`): names are unique
per the data model. -/
def Group.allNames : Group → List String
  | .mk n _ _ _ ops c => n :: (ops ++ c.allNames)
/-- All names occurring in a forest of subtrees. -/
def Forest.allNames : Forest → List String
  | .nil => []
  | .cons g gs => g.allNames ++ gs.allNames
end

/-- Names of the direct children (ops and groups) of a group: the sibling
name space of one dag body. -/
def child_names (g : Group) : List String := g.ops ++ g.groups.map Group.name

mutual
/-- The ancestor-path map built by `_get_groups_for_ops`: for every op (and
every recursive-ref group) the list of ancestor group names, root first, the
entity itself last.  `cur` is the list of names of the groups already on the
traversal stack above the current group. -/
def collect_op_paths : List String → Group → List (String × List String)
  | cur, .mk n _ _ _ ops c =>
      collect_op_paths_forest (cur ++ [n]) c ++ ops.map (fun o => (o, cur ++ [n, o]))
/-- The child-group loop of `_get_groups_for_ops`: a recursive-ref child is
recorded without descent, any other child is descended into. -/
def collect_op_paths_forest : List String → Forest → List (String × List String)
  | _, .nil => []
  | cur, .cons g gs =>
      (if g.recursive_ref then [(g.name, cur ++ [g.name])] else collect_op_paths cur g)
      ++ collect_op_paths_forest cur gs
end

mutual
/-- The ancestor-path map built by `_get_groups_for_opsgroups`: for every
non-recursive group other than the root, its ancestor path (root first, the
group itself last).  Recursive-ref child groups are skipped. -/
def collect_group_paths : List String → Group → List (String × List String)
  | cur, .mk n _ _ _ _ c => collect_group_paths_forest (cur ++ [n]) c
/-- The child-group loop of `_get_groups_for_opsgroups`. -/
def collect_group_paths_forest : List String → Forest → List (String × List String)
  | _, .nil => []
  | cur, .cons g gs =>
      (if g.recursive_ref then []
       else (g.name, cur ++ [g.name]) :: collect_group_paths cur g)
      ++ collect_group_paths_forest cur gs
end

/-- Turns one of the collected association lists into a name-keyed lookup,
modelling the Python dict. -/
def paths_lookup (entries : List (String × List String)) : String → Option (List String) :=
  fun n => (entries.find? (fun e => e.1 == n)).map Prod.snd

/-- `PathFrom g p` holds when `p` is a genuine descent path of the scope
tree rooted at `g`: it starts with `g`'s own name and then either stops,
ends at one of `g`'s ops, or continues through one of `g`'s child groups.
Every path recorded by the two ancestor-path maps is of this shape. -/
inductive PathFrom : Group → List String → Prop where
  | here (g : Group) : PathFrom g [g.name]
  | op (g : Group) (o : String) (h : o ∈ g.ops) : PathFrom g [g.name, o]
  | step (g sub : Group) (p : List String) (h : sub ∈ g.groups)
      (hp : PathFrom sub p) : PathFrom g (g.name :: p)

/-- `SubG g t`: `t` is `g` itself or a group nested somewhere below `g`. -/
inductive SubG : Group → Group → Prop where
  | refl (g : Group) : SubG g g
  | child (g sub t : Group) (h : sub ∈ g.groups) (hs : SubG sub t) : SubG g t

/-- The two-map lookup at the head of `_get_uncommon_ancestors`: the op map
is consulted first, then the opsgroup map, and a name present in neither
raises `ValueError(name + ' does not exist.')`. -/
def lookup_groups (opG grpG : String → Option (List String)) (name : String) :
    Except String (List String) :=
  match opG name with
  | some gs => .ok gs
  | none =>
    match grpG name with
    | some gs => .ok gs
    | none => .error (name ++ " does not exist.")

/-- `common_groups_len` is the Python
`sum(1 for x in zip(*both_groups) if x == (x[0],) * len(x))`: the number of
positions at which the two zipped paths carry equal names. -/
def common_groups_len (p q : List String) : Nat :=
  (p.zip q).countP (fun x => x.2 == x.1)

/-- `_get_uncommon_ancestors`: look both names up (ops map first, then
opsgroups map), and return the two path suffixes past the computed common
length. -/
def get_uncommon_ancestors (opG grpG : String → Option (List String))
    (name1 name2 : String) : Except String (List String × List String) :=
  match lookup_groups opG grpG name1 with
  | .error e => .error e
  | .ok g1 =>
    match lookup_groups opG grpG name2 with
    | .error e => .error e
    | .ok g2 =>
      .ok (g1.drop (common_groups_len g1 g2), g2.drop (common_groups_len g1 g2))

/-- The sibling property of a subtree `g` with pairwise-distinct names: for
any two valid paths of `g`, the entries found at the computed
common-length index (the two first uncommon-ancestor names, i.e. the two
endpoints of a recorded dependency edge) are distinct names that are both
direct children of one common group of the subtree — siblings in one dag
body. -/
def SibStatement (g : Group) : Prop :=
  ∀ (p q : List String) (d u : String), g.allNames.Nodup →
    PathFrom g p → PathFrom g q →
    p[common_groups_len p q]? = some d → q[common_groups_len p q]? = some u →
    d ≠ u ∧ ∃ G, SubG g G ∧ d ∈ child_names G ∧ u ∈ child_names G

/-- The Python substring test `needle in hay` on strings. -/
def py_in (needle hay : String) : Bool :=
  go needle.toList hay.toList
where
  go (n : List Char) : List Char → Bool
    | [] => n.isEmpty
    | c :: rest => n.isPrefixOf (c :: rest) || go n rest

/-- The loop-boundary test of the no-producer walk in `_get_inputs_outputs`:
the scope name is a loop group (`group_name in op_name_to_for_loop_op`) and
that loop's `loop_args.name` occurs inside the parameter's name
(`loop_group.loop_args.name in param.name`).  `for_loop_args` maps a loop
group's name to its `loop_args.name`. -/
def loop_stop (for_loop_args : String → Option String) (param_name g : String) : Bool :=
  match for_loop_args g with
  | some loop_args_name => py_in loop_args_name param_name
  | none => false

/-- The innermost-to-outermost walk of
`for group_name in op_groups[op.name][::-1]` in the no-producer branch of
`_get_inputs_outputs`: every visited scope is registered, and the walk
breaks after registering a loop-boundary scope. -/
def no_producer_walk (for_loop_args : String → Option String) (param_name : String) :
    List String → List String
  | [] => []
  | g :: rest =>
      g :: (if loop_stop for_loop_args param_name g then []
            else no_producer_walk for_loop_args param_name rest)

/-- The input marks of the producer case of `_get_inputs_outputs`: the first
downstream-suffix name requires the parameter from `upstream_groups[0]`
(an `IndexError` if the upstream suffix is empty), every later
downstream-suffix name requires it with source `none` (forwarded from its
own parent). -/
def producer_case_inputs (ug dg : List String) :
    Except String (List (String × Option String)) :=
  match dg, ug with
  | [], _ => .ok []
  | _ :: _, [] => .error "IndexError: list index out of range"
  | d :: drest, u :: _ => .ok ((d, some u) :: drest.map (fun x => (x, none)))

/-- The output marks of the producer case of `_get_inputs_outputs`: every
upstream-suffix name except the last produces the parameter from the next
upstream-suffix entry, and the last (the operator itself) produces it with
source `none` (from the container). -/
def producer_case_outputs : List String → List (String × Option String)
  | [] => []
  | [g] => [(g, none)]
  | g :: g2 :: rest => (g, some g2) :: producer_case_outputs (g2 :: rest)

/-- The body of the per-op, per-parameter loop of `_get_inputs_outputs`
(the op case): given one op and one parameter it consumes (a declared input
or an accumulated condition parameter), compute the list of input marks and
output marks contributed, each a pair of a scope name and an optional
source-scope name.  `pipeline_op_names` are the keys of `pipeline.ops`
(the `upstream_op = pipeline.ops[param.op_name]` lookup), `opG` / `grpG`
the two ancestor-path maps, and `for_loop_args` the loop registry. -/
def io_marks_for_param (pipeline_op_names : List String)
    (opG grpG : String → Option (List String))
    (for_loop_args : String → Option String) (op : Op) (param : Param) :
    Except String (List (String × Option String) × List (String × Option String)) :=
  if param.value.isSome then .ok ([], [])
  else
    match param.op_name with
    | some up_name =>
        if pipeline_op_names.contains up_name then
          match get_uncommon_ancestors opG grpG up_name op.name with
          | .error e => .error e
          | .ok (ug, dg) =>
              match producer_case_inputs ug dg with
              | .error e => .error e
              | .ok ins => .ok (ins, producer_case_outputs ug)
        else .error ("KeyError: " ++ up_name)
    | none =>
        if op.is_exit_handler then .ok ([], [])
        else
          match opG op.name with
          | none => .error ("KeyError: " ++ op.name)
          | some path =>
              .ok ((no_producer_walk for_loop_args param.name path.reverse).map
                     (fun g => (g, none)), [])

/-- The upstream names gathered for one op in `_get_dependencies`: the
producing-op names of its inputs and of its accumulated condition
parameters, together with its explicit `dependent_names`.  (Python collects
them in a set; list membership is what the theorems use, so enumeration
order and duplicates are immaterial.) -/
def upstream_names (op : Op) (cps : List Param) : List String :=
  ((op.inputs ++ cps).filterMap Param.op_name) ++ op.dependent_names

/-- One edge of `_get_dependencies`: compute the uncommon ancestors of the
upstream and downstream entity and record the edge
`downstream_groups[0] → upstream_groups[0]` (an `IndexError` when either
suffix is empty). -/
def dependency_edge (opG grpG : String → Option (List String))
    (up_name down_name : String) : Except String (String × String) :=
  match get_uncommon_ancestors opG grpG up_name down_name with
  | .error e => .error e
  | .ok (ug, dg) =>
    match dg.head?, ug.head? with
    | some d, some u => .ok (d, u)
    | _, _ => .error "IndexError: list index out of range"

/-- The inner loop of `_get_dependencies`: for each upstream name, check it
is a known op or opsgroup (`raise ValueError('compiler cannot find the ' +
upstream_op_name)` otherwise) and record the edge. -/
def edges_for_names (task_names grp_names : List String)
    (opG grpG : String → Option (List String)) (down : String) :
    List String → Except String (List (String × String))
  | [] => .ok []
  | n :: rest =>
    if task_names.contains n || grp_names.contains n then
      match dependency_edge opG grpG n down with
      | .error e => .error e
      | .ok e =>
        match edges_for_names task_names grp_names opG grpG down rest with
        | .error e2 => .error e2
        | .ok es => .ok (e :: es)
    else .error ("compiler cannot find the " ++ n)

/-- The per-op loop of `_get_dependencies` over `pipeline.ops.values()`. -/
def edges_for_ops (task_names grp_names : List String)
    (opG grpG : String → Option (List String)) (cps : String → List Param) :
    List Op → Except String (List (String × String))
  | [] => .ok []
  | op :: rest =>
    match edges_for_names task_names grp_names opG grpG op.name
            (upstream_names op (cps op.name)) with
    | .error e => .error e
    | .ok es =>
      match edges_for_ops task_names grp_names opG grpG cps rest with
      | .error e => .error e
      | .ok es2 => .ok (es ++ es2)

mutual
/-- The recursive group walk `_get_dependency_opsgroup`: each group
contributes edges for its own declared dependency names (plus, for
recursive-ref groups, the producing-op names of its inputs and condition
parameters), then all child groups are visited. -/
def edges_for_group (task_names grp_names : List String)
    (opG grpG : String → Option (List String)) (cps : String → List Param) :
    Group → Except String (List (String × String))
  | .mk n r d i _ c =>
    let ups := d ++ (if r then ((i ++ cps n).filterMap Param.op_name) else [])
    match edges_for_names task_names grp_names opG grpG n ups with
    | .error e => .error e
    | .ok es =>
      match edges_for_forest task_names grp_names opG grpG cps c with
      | .error e => .error e
      | .ok es2 => .ok (es ++ es2)
/-- The child loop of `_get_dependency_opsgroup`. -/
def edges_for_forest (task_names grp_names : List String)
    (opG grpG : String → Option (List String)) (cps : String → List Param) :
    Forest → Except String (List (String × String))
  | .nil => .ok []
  | .cons g gs =>
    match edges_for_group task_names grp_names opG grpG cps g with
    | .error e => .error e
    | .ok es =>
      match edges_for_forest task_names grp_names opG grpG cps gs with
      | .error e => .error e
      | .ok es2 => .ok (es ++ es2)
end

/-- `_get_dependencies`: the union (here: concatenation) of the edges
recorded for every op and of the edges recorded by the recursive group
walk starting at the root group.  `grp_names` are the keys of the
`opsgroups` dict (`_get_groups`), the op keys are the ops' own names. -/
def get_dependencies (ops : List Op) (grp_names : List String)
    (opG grpG : String → Option (List String)) (cps : String → List Param)
    (root : Group) : Except String (List (String × String)) :=
  match edges_for_ops (ops.map Op.name) grp_names opG grpG cps ops with
  | .error e => .error e
  | .ok e1 =>
    match edges_for_group (ops.map Op.name) grp_names opG grpG cps root with
    | .error e => .error e
    | .ok e2 => .ok (e1 ++ e2)

/-! ## Emitter fragments -/

/-- A name-keyed map of the micro IR, modelling a protobuf map field. -/
def StrMap (α : Type) : Type := String → Option α

/-- Map update, modelling `m[key].CopyFrom(value)` / `m[key] = value`. -/
def StrMap.set {α : Type} (m : StrMap α) (k : String) (v : α) : StrMap α :=
  fun x => if x == k then some v else m x

/-- One entry of `PipelineTaskSpec.inputs.parameters`: either a reference to
the enclosing component's own input (`component_input_parameter`) or to a
sibling task's output (`task_output_parameter.producer_task` /
`.output_parameter_key`), with an optional
`parameter_expression_selector`. -/
structure TaskInputParameter where
  component_input_parameter : Option String
  producer_task : Option String
  output_parameter_key : Option String
  parameter_expression_selector : Option String
deriving DecidableEq, Repr

/-- The `parameter_iterator` message of a task spec: for a static loop the
raw items (`items.raw`; `json.dumps` of a Python list is order-preserving,
so the list itself is kept), for a dynamic loop the referenced input
parameter (`items.input_parameter`), plus the per-iteration `item_input`. -/
structure ParameterIteratorSpec where
  items_raw : Option (List String)
  items_input_parameter : Option String
  item_input : String
deriving DecidableEq, Repr

/-- The fragment of `PipelineTaskSpec` the verified emitter paths touch. -/
structure PipelineTaskSpec where
  task_name : String
  component_ref : String
  input_parameters : List (String × TaskInputParameter)
  parameter_iterator : Option ParameterIteratorSpec
  trigger_condition : Option String
  dependent_tasks : List String
deriving DecidableEq, Repr

/-- The fragment of `ComponentSpec` the verified emitter paths touch:
declared input parameters (name and type) and the dag body's task map. -/
structure ComponentSpec where
  input_parameter_defs : List (String × String)
  dag_tasks : StrMap PipelineTaskSpec

/-- Insert-or-update in an association list, modelling assignment to a
protobuf map entry (`parameters[name].type = ...`). -/
def upsert {α : Type} (l : List (String × α)) (k : String) (v : α) :
    List (String × α) :=
  if l.any (fun e => e.1 == k) then
    l.map (fun e => if e.1 == k then (k, v) else e)
  else l ++ [(k, v)]

/-- Modelled from the spec: the external
`dsl_component_spec.pop_input_from_component_spec` helper (not under
`src/`) removes a declared input from a component spec. -/
def remove_key {α : Type} (l : List (String × α)) (k : String) :
    List (String × α) :=
  l.filter (fun e => !(e.1 == k))

/-- `list.sort()` on strings followed by
`[dsl_utils.sanitize_task_name(dep) for dep in group_dependencies]`: the
rendering of one task spec's `dependent_tasks` list in `_group_to_dag_spec`.
Python's `list.sort` is an (extensionally unique) ascending sort in the
lexicographic string order.  `sanitize_task_name` is external identifier
sanitization and stays opaque. -/
def render_dependent_tasks (sanitize_task_name : String → String)
    (deps : List String) : List String :=
  (deps.insertionSort (· ≤ ·)).map sanitize_task_name

/-- Modelled from the spec: the resolved type of a parameter
(`param.param_type` after unification), which is either a parameter type
with a numeric or string accessor field, or an artifact type.  The external
`type_utils.is_parameter_type` / `type_utils.get_parameter_type_field_name`
helpers (repository code not under `src/`) are given by the two functions
below. -/
inductive ParamType where
  | int_type : ParamType
  | double_type : ParamType
  | string_type : ParamType
  | artifact_type (schema_title : String) : ParamType
deriving DecidableEq, Repr

/-- Modelled from the spec: `type_utils.is_parameter_type` distinguishes
parameter types from artifact types. -/
def is_parameter_type : ParamType → Bool
  | .artifact_type _ => false
  | _ => true

/-- Modelled from the spec: `type_utils.get_parameter_type_field_name`
selects the numeric or string accessor field for a parameter type. -/
def get_parameter_type_field_name : ParamType → String
  | .int_type => "int_value"
  | .double_type => "double_value"
  | _ => "string_value"

/-- One operand of a `dsl.Condition`: a `PipelineParam` (carrying its
sanitized name and resolved type), a string literal, or another literal
carried together with its `str()` rendering. -/
inductive ConditionOperand where
  | pipeline_param (name : String) (param_type : ParamType) : ConditionOperand
  | str_value (s : String) : ConditionOperand
  | other_value (rendered : String) : ConditionOperand
deriving DecidableEq, Repr

/-- A single-quote character, used by the Python format strings of
`_resolve_value_or_reference`. -/
def squote : String := (Char.ofNat 39).toString

/-- `_resolve_value_or_reference`: a `PipelineParam` of parameter type
renders as `inputs.parameters['NAME'].FIELD` over the component's own
declared input (the external
`dsl_component_spec.additional_input_name_for_pipelineparam` is the opaque
`addl`), an artifact-typed param raises `NotImplementedError`, a string
literal renders single-quoted, and any other value renders as its `str()`
text. -/
def resolve_value_or_reference (addl : String → String) :
    ConditionOperand → Except String String
  | .pipeline_param n ty =>
    if is_parameter_type ty then
      .ok ("inputs.parameters[" ++ squote ++ addl n ++ squote ++ "]." ++
            get_parameter_type_field_name ty)
    else
      .error "Use artifact as dsl.Condition operand is not implemented yet."
  | .str_value s => .ok (squote ++ s ++ squote)
  | .other_value r => .ok r

/-- The condition of a condition group: two operands and an operator. -/
structure ConditionSpec where
  operand1 : ConditionOperand
  operator : String
  operand2 : ConditionOperand
deriving DecidableEq, Repr

/-- The condition-group branch of `_group_to_dag_spec`: resolve both
operands, format `'{} {} {}'`, and store the result as the task spec's
trigger-policy condition. -/
def emit_condition_trigger (addl : String → String) (c : ConditionSpec)
    (ts : PipelineTaskSpec) : Except String PipelineTaskSpec :=
  match resolve_value_or_reference addl c.operand1 with
  | .error e => .error e
  | .ok v1 =>
    match resolve_value_or_reference addl c.operand2 with
    | .error e => .error e
    | .ok v2 =>
      .ok { ts with trigger_condition := some (v1 ++ " " ++ c.operator ++ " " ++ v2) }

/-- A `dsl.ParallelFor` group as the loop-lowering code sees it: its name,
the `items_is_pipeline_param` flag (withParam vs withItems), the loop
arguments' `full_name`, the full name of `items_or_pipeline_param` (used in
the withParam case), and the raw item list
(`loop_args.to_list_for_task_yaml()`, used in the withItems case; items are
kept as their serialized text, order-preserved, duplicates allowed). -/
structure ParallelForGroup where
  name : String
  items_is_pipeline_param : Bool
  loop_args_full_name : String
  loop_args_pipeline_param : String
  raw_items : List String
deriving DecidableEq, Repr

/-- `_insert_loop_iterator_component`: build the synthetic iterator
component (inputs copied from the loop's component, the loop-argument input
retyped to STRING), register it in the pipeline's component table under
`sanitize_component_name(loop.name + '-iterator')`, and add the iterator
task spec — carrying the `parameter_iterator` with either the raw item list
(withItems) or the referenced input parameter (withParam) — into the loop's
own dag body under `sanitize_task_name(loop.name + '-iterator')`.  Returns
the updated loop component spec and component table.  The externals
`additional_input_name_for_pipelineparam` (`addl`),
`sanitize_component_name`, `sanitize_task_name` and
`LoopArguments.LOOP_ITEM_NAME_BASE` (`loop_item_name_base`) stay opaque. -/
def insert_loop_iterator_component (addl : String → String)
    (sanitize_component_name sanitize_task_name : String → String)
    (loop_item_name_base : String) (subgroup : ParallelForGroup)
    (subgroup_component_spec : ComponentSpec)
    (components : StrMap ComponentSpec) :
    ComponentSpec × StrMap ComponentSpec :=
  let input_parameter_name :=
    if subgroup.items_is_pipeline_param then addl subgroup.loop_args_pipeline_param
    else addl subgroup.loop_args_full_name
  let base_name := subgroup.name ++ "-iterator"
  let loop_argument_base_name := input_parameter_name ++ "-" ++ loop_item_name_base
  let iter_defs :=
    if subgroup.items_is_pipeline_param then
      upsert (remove_key subgroup_component_spec.input_parameter_defs input_parameter_name)
        loop_argument_base_name "STRING"
    else
      upsert subgroup_component_spec.input_parameter_defs input_parameter_name "STRING"
  let comp_name := sanitize_component_name base_name
  let task_key := sanitize_task_name base_name
  let item_input :=
    if subgroup.items_is_pipeline_param then loop_argument_base_name
    else input_parameter_name
  let explicit_inputs : List (String × TaskInputParameter) :=
    if subgroup.items_is_pipeline_param then
      [(input_parameter_name,
        { component_input_parameter := some input_parameter_name,
          producer_task := none, output_parameter_key := none,
          parameter_expression_selector := none })]
    else []
  let forwarded : List (String × TaskInputParameter) :=
    (iter_defs.map Prod.fst).filterMap (fun nm =>
      if nm == item_input then none
      else some (nm,
        { component_input_parameter := some nm,
          producer_task := none, output_parameter_key := none,
          parameter_expression_selector := none }))
  let iter_task : PipelineTaskSpec :=
    { task_name := task_key, component_ref := comp_name,
      input_parameters := explicit_inputs ++ forwarded,
      parameter_iterator := some
        { items_raw :=
            if subgroup.items_is_pipeline_param then none else some subgroup.raw_items,
          items_input_parameter :=
            if subgroup.items_is_pipeline_param then some input_parameter_name else none,
          item_input := item_input },
      trigger_condition := none, dependent_tasks := [] }
  let iter_comp : ComponentSpec :=
    { input_parameter_defs := iter_defs, dag_tasks := fun _ => none }
  ({ subgroup_component_spec with
      dag_tasks := subgroup_component_spec.dag_tasks.set task_key iter_task },
   components.set comp_name iter_comp)

/-- The loop-argument name reconstructed at the head of the per-input loop
of `_update_loop_subgroup_specs`: the `component_input_parameter` when that
field is set, otherwise the producer task name stripped of its task-name
marker by the external `dsl_utils` helper (`strip_task_name`) joined with
the output key (protobuf string fields default to the empty string). -/
def loop_argument_name_of (strip_task_name : String → String)
    (p : TaskInputParameter) : String :=
  match p.component_input_parameter with
  | some v => v
  | none =>
    strip_task_name (p.producer_task.getD "") ++ "-" ++
      (p.output_parameter_key.getD "")

/-- One iteration of the per-input loop of `_update_loop_subgroup_specs`.
The external `_for_loop` name tests
(`name_is_withparams_loop_argument`, `name_is_withitems_loop_argument`,
`LoopArgumentVariable.name_is_loop_arguments_variable`,
`get_subvar_name`) stay opaque, as do `addl` and
`strip_task_name` (the `dsl_utils` task-name stripper).  A withParam-shaped
name under a withItems loop
is the code's failing `assert group.items_is_pipeline_param`. -/
def update_loop_input (is_withparams_arg is_withitems_arg is_loop_arguments_var : String → Bool)
    (get_subvar_name : String → String) (addl : String → String)
    (strip_task_name : String → String) (loop_item_name_base : String)
    (group : ParallelForGroup) (inp : String × TaskInputParameter) :
    Except String (String × TaskInputParameter) :=
  let lan := loop_argument_name_of strip_task_name inp.2
  let withparams_target :=
    addl (group.loop_args_pipeline_param ++ "-" ++ loop_item_name_base)
  let step1 : Except String TaskInputParameter :=
    if is_withparams_arg lan then
      if group.items_is_pipeline_param then
        .ok { inp.2 with component_input_parameter := some withparams_target }
      else .error "AssertionError: group.items_is_pipeline_param"
    else if is_withitems_arg lan then
      .ok { inp.2 with component_input_parameter := some (addl group.loop_args_full_name) }
    else .ok inp.2
  match step1 with
  | .error e => .error e
  | .ok p2 =>
    if is_loop_arguments_var lan then
      let selector := "parseJson(string_value)[\"" ++ get_subvar_name lan ++ "\"]"
      .ok (inp.1, { p2 with parameter_expression_selector := some selector })
    else .ok (inp.1, p2)

/-- Effectful map over a list, used to run `update_loop_input` over all
input parameters of a task spec. -/
def mapME {α β : Type} (f : α → Except String β) : List α → Except String (List β)
  | [] => .ok []
  | a :: rest =>
    match f a with
    | .error e => .error e
    | .ok b =>
      match mapME f rest with
      | .error e => .error e
      | .ok bs => .ok (b :: bs)

/-- `_update_loop_subgroup_specs`: rewrite every input parameter of a loop
subgroup's task spec through `update_loop_input`. -/
def update_loop_subgroup_specs (is_withparams_arg is_withitems_arg is_loop_arguments_var : String → Bool)
    (get_subvar_name : String → String) (addl : String → String)
    (strip_task_name : String → String) (loop_item_name_base : String)
    (group : ParallelForGroup) (ts : PipelineTaskSpec) :
    Except String PipelineTaskSpec :=
  match mapME (update_loop_input is_withparams_arg is_withitems_arg
                is_loop_arguments_var get_subvar_name addl
                strip_task_name loop_item_name_base group)
          ts.input_parameters with
  | .error e => .error e
  | .ok ips => .ok { ts with input_parameters := ips }

/-! ## Helper lemmas -/

/-- Closed form of the producer-case output marks: zipping the upstream
suffix with its own tail (as sources) followed by a final `none`. -/
theorem producer_case_outputs_zip : ∀ (l : List String),
    producer_case_outputs l = l.zip ((l.drop 1).map some ++ [(none : Option String)])
  | [] => by simp [producer_case_outputs]
  | [g] => by simp [producer_case_outputs]
  | g :: g2 :: rest => by
      have ih := producer_case_outputs_zip (g2 :: rest)
      simp only [producer_case_outputs, ih, List.drop_succ_cons, List.drop_zero,
        List.map_cons, List.cons_append, List.zip_cons_cons]

/-- A walk that never meets a loop boundary visits the whole path. -/
theorem no_producer_walk_no_stop (fla : String → Option String) (pn : String) :
    ∀ (l : List String), (∀ g ∈ l, loop_stop fla pn g = false) →
      no_producer_walk fla pn l = l := by
  intro l
  induction l with
  | nil => intro _; rfl
  | cons g rest ih =>
    intro h
    have hg := h g (List.mem_cons_self g rest)
    simp [no_producer_walk, hg, ih (fun x hx => h x (List.mem_cons_of_mem g hx))]

/-- A walk that first meets a loop boundary at `g` visits exactly the
scopes up to and including `g`. -/
theorem no_producer_walk_stop_at (fla : String → Option String) (pn : String) :
    ∀ (pre : List String) (g : String) (post : List String),
      (∀ x ∈ pre, loop_stop fla pn x = false) → loop_stop fla pn g = true →
      no_producer_walk fla pn (pre ++ g :: post) = pre ++ [g] := by
  intro pre
  induction pre with
  | nil => intro g post _ hg; simp [no_producer_walk, hg]
  | cons a rest ih =>
    intro g post h hg
    have ha := h a (List.mem_cons_self a rest)
    have hrest := ih g post (fun x hx => h x (List.mem_cons_of_mem a hx)) hg
    simp only [List.cons_append, no_producer_walk, ha, Bool.false_eq_true, if_false,
      List.append_eq]
    rw [hrest]

/-! ## Claims -/

/-- Claim C1: for a consumed parameter with no literal value and a producing
task, with `uncommon-ancestors(U, T) = (upstream-suffix, downstream-suffix)`,
the I/O resolver marks the first downstream-suffix name as requiring the
parameter from the first upstream-suffix name, every later downstream-suffix
name as requiring it with source `none` (forwarded from its own parent),
every upstream-suffix name except the last as producing it from the next
upstream-suffix entry, and the last upstream-suffix name as producing it
with source `none` (from the executable itself).  The output marks are
stated in the closed zip form: each upstream name is paired with the next
one, and the last with `none`. -/
theorem c1_producer_case_marks
    (pipeline_op_names : List String) (opG grpG : String → Option (List String))
    (for_loop_args : String → Option String) (op : Op) (param : Param)
    (up_name u0 d0 : String) (urest drest : List String)
    (hv : param.value = none) (hop : param.op_name = some up_name)
    (hmem : pipeline_op_names.contains up_name = true)
    (hua : get_uncommon_ancestors opG grpG up_name op.name = .ok (u0 :: urest, d0 :: drest)) :
    io_marks_for_param pipeline_op_names opG grpG for_loop_args op param =
      .ok ((d0, some u0) :: drest.map (fun g => (g, none)),
           (u0 :: urest).zip (urest.map some ++ [none])) := by
  unfold io_marks_for_param
  rw [hv, hop]
  simp only [Option.isSome_none, Bool.false_eq_true, if_false, hmem, if_true, hua,
    producer_case_inputs, producer_case_outputs_zip, List.drop_succ_cons, List.drop_zero]

/-- Witness for C1 on a two-task pipeline: task `task-t` consumes the output
of `task-u`; both uncommon-ancestor suffixes are singletons, so the resolver
marks `task-t` as requiring the parameter from `task-u` and `task-u` as
producing it from its own container. -/
theorem c1_producer_case_marks_witness :
    io_marks_for_param ["task-u", "task-t"]
      (fun n => if n == "task-u" then some ["root", "task-u"]
                else if n == "task-t" then some ["root", "task-t"] else none)
      (fun _ => none) (fun _ => none)
      ⟨"task-t", [], [], false⟩ ⟨"out1", none, some "task-u"⟩ =
    .ok ([("task-t", some "task-u")], [("task-u", none)]) := by
  exact c1_producer_case_marks _ _ _ _ _ _ "task-u" "task-u" "task-t" [] []
    rfl rfl rfl rfl

/-- Claim C2: a consumed parameter with no literal value and no producing
task, for a non-exit-handler task, is registered with source `none` on
every scope of the task's ancestor path (in particular on every ancestor
scope from the task's immediate parent up to the root) when no scope on the
path is a loop group whose iteration-variable name matches (occurs inside)
the parameter's name. -/
theorem c2_no_producer_propagation
    (pipeline_op_names : List String) (opG grpG : String → Option (List String))
    (for_loop_args : String → Option String) (op : Op) (param : Param)
    (path : List String)
    (hv : param.value = none) (hop : param.op_name = none)
    (hex : op.is_exit_handler = false)
    (hpath : opG op.name = some path)
    (hloop : ∀ g ∈ path, loop_stop for_loop_args param.name g = false) :
    ∃ ins, io_marks_for_param pipeline_op_names opG grpG for_loop_args op param =
        .ok (ins, []) ∧ ∀ g ∈ path, ((g, none) ∈ ins) := by
  refine ⟨path.reverse.map (fun g => (g, none)), ?_, ?_⟩
  · unfold io_marks_for_param
    rw [hv, hop]
    simp only [Option.isSome_none, Bool.false_eq_true, if_false, hex, hpath]
    rw [no_producer_walk_no_stop for_loop_args param.name path.reverse
      (fun g hg => hloop g (List.mem_reverse.mp hg))]
  · intro g hg
    exact List.mem_map_of_mem _ (List.mem_reverse.mpr hg)

/-- Witness for C2: a task nested in a sequential group under the root,
consuming a pipeline-level parameter; the parameter is registered on the
task itself, the group and the root. -/
theorem c2_no_producer_propagation_witness :
    ∃ ins, io_marks_for_param []
        (fun n => if n == "task-t" then some ["root", "seq-1", "task-t"] else none)
        (fun _ => none) (fun _ => none)
        ⟨"task-t", [], [], false⟩ ⟨"arg1", none, none⟩ = .ok (ins, []) ∧
      ∀ g ∈ (["root", "seq-1", "task-t"] : List String), ((g, none) ∈ ins) := by
  exact c2_no_producer_propagation _ _ _ _ _ _ ["root", "seq-1", "task-t"]
    rfl rfl rfl (by decide) (by decide)

/-- Claim C9: the innermost-to-outermost no-producer walk starts at the
consuming task itself (the last entry of its ancestor path), so the
parameter is registered with source `none` under the task's own name as
well, before any loop-boundary check can stop the walk. -/
theorem c9_walk_includes_task_itself
    (pipeline_op_names : List String) (opG grpG : String → Option (List String))
    (for_loop_args : String → Option String) (op : Op) (param : Param)
    (path : List String)
    (hv : param.value = none) (hop : param.op_name = none)
    (hex : op.is_exit_handler = false)
    (hpath : opG op.name = some path)
    (hlast : path.getLast? = some op.name) :
    ∃ ins, io_marks_for_param pipeline_op_names opG grpG for_loop_args op param =
        .ok (ins, []) ∧ ((op.name, (none : Option String)) ∈ ins) := by
  have hrev : path.reverse.head? = some op.name := by
    rw [List.head?_reverse]; exact hlast
  obtain ⟨t, ht⟩ : ∃ t, path.reverse = op.name :: t := by
    cases hcase : path.reverse with
    | nil => rw [hcase] at hrev; simp at hrev
    | cons a t =>
      rw [hcase] at hrev
      simp only [List.head?_cons, Option.some.injEq] at hrev
      exact ⟨t, by rw [hrev]⟩
  refine ⟨(no_producer_walk for_loop_args param.name path.reverse).map (fun g => (g, none)),
    ?_, ?_⟩
  · unfold io_marks_for_param
    rw [hv, hop]
    simp only [Option.isSome_none, Bool.false_eq_true, if_false, hex, hpath]
  · rw [ht]
    simp only [no_producer_walk, List.map_cons]
    exact List.mem_cons_self _ _

/-- Witness for C9: a loop-nested task consuming a producer-less parameter;
the registered-input set includes the task's own name. -/
theorem c9_walk_includes_task_itself_witness :
    ∃ ins, io_marks_for_param []
        (fun n => if n == "task-x" then some ["root", "for-loop-1", "task-x"] else none)
        (fun _ => none)
        (fun n => if n == "for-loop-1" then some "loop-item-param-1" else none)
        ⟨"task-x", [], [], false⟩ ⟨"loop-item-param-1--a", none, none⟩ = .ok (ins, []) ∧
      (("task-x", (none : Option String)) ∈ ins) := by
  exact c9_walk_includes_task_itself _ _ _ _ _ _ ["root", "for-loop-1", "task-x"]
    rfl rfl rfl (by decide) (by decide)

/-- Claim C10: when the no-producer walk reaches a loop group whose
iteration-variable name occurs as a substring anywhere inside the
parameter's name (the Python containment test `loop_args.name in
param.name`), the parameter is still registered as a required input of that
loop group itself — the registration happens before the boundary check —
and only the scopes strictly above the loop group are skipped. -/
theorem c10_loop_boundary_registers_loop_itself
    (pipeline_op_names : List String) (opG grpG : String → Option (List String))
    (for_loop_args : String → Option String) (op : Op) (param : Param)
    (path pre post : List String) (g : String)
    (hv : param.value = none) (hop : param.op_name = none)
    (hex : op.is_exit_handler = false)
    (hpath : opG op.name = some path)
    (hrev : path.reverse = pre ++ g :: post)
    (hpre : ∀ x ∈ pre, loop_stop for_loop_args param.name x = false)
    (hg : loop_stop for_loop_args param.name g = true)
    (hnd : path.Nodup) :
    ∃ ins, io_marks_for_param pipeline_op_names opG grpG for_loop_args op param =
        .ok (ins, []) ∧ ((g, (none : Option String)) ∈ ins) ∧
        ∀ x ∈ post, ((x, (none : Option String)) ∉ ins) := by
  refine ⟨(pre ++ [g]).map (fun x => (x, none)), ?_, ?_, ?_⟩
  · unfold io_marks_for_param
    rw [hv, hop]
    simp only [Option.isSome_none, Bool.false_eq_true, if_false, hex, hpath]
    rw [hrev, no_producer_walk_stop_at for_loop_args param.name pre g post hpre hg]
  · exact List.mem_map_of_mem _ (by simp)
  · intro x hx hmem
    obtain ⟨a, ha, heq⟩ := List.mem_map.mp hmem
    simp only [Prod.mk.injEq] at heq
    obtain ⟨hax, -⟩ := heq
    have hnd' : (pre ++ g :: post).Nodup := by
      rw [← hrev]; exact List.nodup_reverse.mpr hnd
    rcases List.mem_append.mp ha with hpre' | hg'
    · refine (List.disjoint_of_nodup_append hnd') ?_ (List.mem_cons_of_mem g hx)
      rw [← hax]; exact hpre'
    · have hag : a = g := by simpa using hg'
      have hxg : g ∈ post := by rw [← hag, hax]; exact hx
      have : (g :: post).Nodup := hnd'.of_append_right
      exact (List.nodup_cons.mp this).1 hxg

/-- Witness for C10: the loop variable name `loop-item-param-1` occurs
strictly inside (not as a prefix of) the parameter name
`output-loop-item-param-1-subvar`; the loop group itself is registered, the
root above it is not. -/
theorem c10_loop_boundary_registers_loop_itself_witness :
    ∃ ins, io_marks_for_param []
        (fun n => if n == "task-x" then some ["root", "for-loop-1", "task-x"] else none)
        (fun _ => none)
        (fun n => if n == "for-loop-1" then some "loop-item-param-1" else none)
        ⟨"task-x", [], [], false⟩ ⟨"output-loop-item-param-1-subvar", none, none⟩ =
          .ok (ins, []) ∧
      (("for-loop-1", (none : Option String)) ∈ ins) ∧
      ∀ x ∈ (["root"] : List String), ((x, (none : Option String)) ∉ ins) := by
  exact c10_loop_boundary_registers_loop_itself _ _ _ _ _ _
    ["root", "for-loop-1", "task-x"] ["task-x"] ["root"] "for-loop-1"
    rfl rfl rfl (by decide) (by decide) (by decide) (by decide) (by decide)

/-- The computed common length is symmetric in its two arguments. -/
theorem common_groups_len_comm : ∀ (p q : List String),
    common_groups_len p q = common_groups_len q p := by
  intro p
  induction p with
  | nil => intro q; cases q <;> simp [common_groups_len]
  | cons a p ih =>
    intro q
    cases q with
    | nil => simp [common_groups_len]
    | cons b q =>
      simp only [common_groups_len, List.zip_cons_cons, List.countP_cons] at *
      rw [ih q]
      congr 1
      by_cases hab : a = b
      · subst hab; rfl
      · simp [beq_iff_eq, hab, Ne.symm hab]

/-- Claim C3: for two entities present in the path maps,
`uncommon_ancestors` with swapped arguments returns the swapped pair, and
for each entity, its path truncated to the computed common-prefix length
concatenated with the suffix returned for it reconstructs its full path. -/
theorem c3_uncommon_ancestors_swap_reconstruct
    (opG grpG : String → Option (List String)) (a b : String)
    (p q s1 s2 : List String)
    (hp : lookup_groups opG grpG a = .ok p) (hq : lookup_groups opG grpG b = .ok q)
    (h : get_uncommon_ancestors opG grpG a b = .ok (s1, s2)) :
    get_uncommon_ancestors opG grpG b a = .ok (s2, s1) ∧
    p.take (common_groups_len p q) ++ s1 = p ∧
    q.take (common_groups_len p q) ++ s2 = q := by
  have hab : get_uncommon_ancestors opG grpG a b =
      .ok (p.drop (common_groups_len p q), q.drop (common_groups_len p q)) := by
    unfold get_uncommon_ancestors
    rw [hp, hq]
  rw [hab] at h
  obtain ⟨hs1, hs2⟩ : s1 = p.drop (common_groups_len p q) ∧
      s2 = q.drop (common_groups_len p q) := by
    have := (Except.ok.injEq _ _).mp h
    exact ⟨((Prod.mk.injEq _ _ _ _).mp this).1.symm, ((Prod.mk.injEq _ _ _ _).mp this).2.symm⟩
  subst hs1
  subst hs2
  refine ⟨?_, List.take_append_drop _ p, List.take_append_drop _ q⟩
  have hba : get_uncommon_ancestors opG grpG b a =
      .ok (q.drop (common_groups_len q p), p.drop (common_groups_len q p)) := by
    unfold get_uncommon_ancestors
    rw [hq, hp]
  rw [hba, common_groups_len_comm q p]

/-- Witness for C3 on two concrete three-level paths with common prefix
`[root]`: swapping the arguments swaps the suffix pair and both paths are
reconstructed from prefix and suffix. -/
theorem c3_uncommon_ancestors_swap_reconstruct_witness :
    get_uncommon_ancestors
      (fun n => if n == "op1" then some ["root", "g1", "op1"]
                else if n == "op2" then some ["root", "g2", "op2"] else none)
      (fun _ => none) "op2" "op1" = .ok (["g2", "op2"], ["g1", "op1"]) ∧
    (["root", "g1", "op1"] : List String).take
        (common_groups_len ["root", "g1", "op1"] ["root", "g2", "op2"]) ++
      ["g1", "op1"] = ["root", "g1", "op1"] ∧
    (["root", "g2", "op2"] : List String).take
        (common_groups_len ["root", "g1", "op1"] ["root", "g2", "op2"]) ++
      ["g2", "op2"] = ["root", "g2", "op2"] := by
  exact c3_uncommon_ancestors_swap_reconstruct _ _ "op1" "op2"
    ["root", "g1", "op1"] ["root", "g2", "op2"] ["g1", "op1"] ["g2", "op2"]
    rfl rfl rfl

/-- Claim C5: the one list-valued IR field derived from the
order-independent result sets — a task spec's `dependent_tasks` — is
rendered through a stable lexicographic sort on the dependency names before
sanitization, so any two enumerations of the same dependency set (as two
compilation runs of the same definition may produce) render byte-identically. -/
theorem c5_dependent_tasks_render_deterministic
    (sanitize_task_name : String → String) (l1 l2 : List String)
    (h : l1.Perm l2) :
    render_dependent_tasks sanitize_task_name l1 =
      render_dependent_tasks sanitize_task_name l2 := by
  unfold render_dependent_tasks
  congr 1
  refine List.eq_of_perm_of_sorted
    (((List.perm_insertionSort _ l1).trans h).trans (List.perm_insertionSort _ l2).symm)
    (List.sorted_insertionSort _ l1) (List.sorted_insertionSort _ l2)

/-- Witness for C5: two enumeration orders of the same dependency set
render the same `dependent_tasks` list. -/
theorem c5_dependent_tasks_render_deterministic_witness :
    render_dependent_tasks (fun s => "task-" ++ s) ["g2", "op1", "g1"] =
      render_dependent_tasks (fun s => "task-" ++ s) ["g1", "g2", "op1"] := by
  exact c5_dependent_tasks_render_deterministic _ _ _ (by decide)

/-- Inner loop of `_get_dependencies`: a successful run certifies that every
processed upstream name was a known op or opsgroup. -/
theorem edges_for_names_ok_known (task_names grp_names : List String)
    (opG grpG : String → Option (List String)) (down : String) :
    ∀ (names : List String) (es : List (String × String)),
      edges_for_names task_names grp_names opG grpG down names = .ok es →
      ∀ n ∈ names, task_names.contains n = true ∨ grp_names.contains n = true := by
  intro names
  induction names with
  | nil => intro es _ n hn; cases hn
  | cons m rest ih =>
    intro es h n hn
    by_cases hknown : (task_names.contains m || grp_names.contains m) = true
    · rcases List.mem_cons.mp hn with rfl | hn'
      · exact Bool.or_eq_true_iff.mp hknown
      · simp only [edges_for_names, hknown, if_true] at h
        cases h1 : dependency_edge opG grpG m down with
        | error e => rw [h1] at h; cases h
        | ok e =>
          rw [h1] at h
          cases h2 : edges_for_names task_names grp_names opG grpG down rest with
          | error e2 => rw [h2] at h; cases h
          | ok es2 => exact ih es2 h2 n hn'
    · simp only [edges_for_names, hknown, if_false] at h
      cases h

/-- Per-op loop of `_get_dependencies`: a successful run certifies that
every upstream name of every op was a known op or opsgroup. -/
theorem edges_for_ops_ok_known (task_names grp_names : List String)
    (opG grpG : String → Option (List String)) (cps : String → List Param) :
    ∀ (ops : List Op) (es : List (String × String)),
      edges_for_ops task_names grp_names opG grpG cps ops = .ok es →
      ∀ op ∈ ops, ∀ n ∈ upstream_names op (cps op.name),
        task_names.contains n = true ∨ grp_names.contains n = true := by
  intro ops
  induction ops with
  | nil => intro es _ op hop; cases hop
  | cons o rest ih =>
    intro es h op hop n hn
    cases h1 : edges_for_names task_names grp_names opG grpG o.name
        (upstream_names o (cps o.name)) with
    | error e =>
      simp only [edges_for_ops, h1] at h
      exact (Except.noConfusion h)
    | ok es1 =>
      simp only [edges_for_ops, h1] at h
      cases h2 : edges_for_ops task_names grp_names opG grpG cps rest with
      | error e => rw [h2] at h; cases h
      | ok es2 =>
        rcases List.mem_cons.mp hop with rfl | hop'
        · exact edges_for_names_ok_known task_names grp_names opG grpG op.name _ es1 h1 n hn
        · exact ih es2 h2 op hop' n hn

/-- Claim C6: a name absent from both ancestor-path maps makes
`_get_uncommon_ancestors` raise its fatal `ValueError` at the point of
detection; and whenever the dependency resolver completes with a result (so
produced an output at all), every upstream name it processed was a known
task or a known group — contrapositively, an unknown upstream name makes it
abort with its fatal `ValueError` and produce no output. -/
theorem c6_unknown_name_fatal
    (opG grpG : String → Option (List String)) (n b : String)
    (ops : List Op) (grp_names : List String) (cps : String → List Param)
    (root : Group) (es : List (String × String)) :
    (opG n = none → grpG n = none →
      get_uncommon_ancestors opG grpG n b = .error (n ++ " does not exist.")) ∧
    (get_dependencies ops grp_names opG grpG cps root = .ok es →
      ∀ op ∈ ops, ∀ m ∈ upstream_names op (cps op.name),
        (ops.map Op.name).contains m = true ∨ grp_names.contains m = true) := by
  constructor
  · intro h1 h2
    unfold get_uncommon_ancestors lookup_groups
    rw [h1, h2]
  · intro h op hop m hm
    cases h1 : edges_for_ops (ops.map Op.name) grp_names opG grpG cps ops with
    | error e =>
      simp only [get_dependencies, h1] at h
      exact (Except.noConfusion h)
    | ok e1 =>
      exact edges_for_ops_ok_known (ops.map Op.name) grp_names opG grpG cps ops e1 h1
        op hop m hm

/-- Witness for C6: the name `ghost` is in neither map, so ancestor
resolution fails with the exact `ValueError` text; and on a two-task
pipeline whose dependency resolution succeeds, the referenced upstream name
`task-u` is certified known. -/
theorem c6_unknown_name_fatal_witness :
    get_uncommon_ancestors (fun _ => none) (fun _ => none) "ghost" "x" =
      .error ("ghost does not exist.") ∧
    ((([⟨"task-u", [], [], false⟩,
        ⟨"task-t", [⟨"out1", none, some "task-u"⟩], [], false⟩] : List Op).map
          Op.name).contains "task-u" = true ∨
      (["root"] : List String).contains "task-u" = true) := by
  constructor
  · exact (c6_unknown_name_fatal (fun _ => none) (fun _ => none) "ghost" "x"
      [] [] (fun _ => []) (.mk "root" false [] [] [] .nil) []).1 rfl rfl
  · refine (c6_unknown_name_fatal
      (fun n => if n == "task-u" then some ["root", "task-u"]
                else if n == "task-t" then some ["root", "task-t"] else none)
      (fun _ => none) "ghost" "x"
      [⟨"task-u", [], [], false⟩, ⟨"task-t", [⟨"out1", none, some "task-u"⟩], [], false⟩]
      ["root"] (fun _ => []) (.mk "root" false [] [] ["task-u", "task-t"] .nil)
      [("task-t", "task-u")]).2 rfl
      ⟨"task-t", [⟨"out1", none, some "task-u"⟩], [], false⟩ (by simp) "task-u" (by simp [upstream_names])

/-- Claim C7: condition-operand resolution — a string literal renders as its
single-quoted text, any other literal as its unquoted `str()` text, a
parameter operand of parameter type as a reference into the component's own
declared input with the accessor selected by its resolved type, and an
artifact-typed parameter operand makes the condition emission raise its
fatal `NotImplementedError`; on success the rendered
`operand1 operator operand2` string becomes the task spec's trigger-policy
condition. -/
theorem c7_condition_resolution (addl : String → String) (s r nm opstr nm2 : String)
    (ty ty2 : ParamType) (o2 : ConditionOperand) (c : ConditionSpec)
    (ts : PipelineTaskSpec) :
    (resolve_value_or_reference addl (.str_value s) = .ok (squote ++ s ++ squote)) ∧
    (resolve_value_or_reference addl (.other_value r) = .ok r) ∧
    (is_parameter_type ty = true →
      resolve_value_or_reference addl (.pipeline_param nm ty) =
        .ok ("inputs.parameters[" ++ squote ++ addl nm ++ squote ++ "]." ++
              get_parameter_type_field_name ty)) ∧
    (is_parameter_type ty2 = false →
      emit_condition_trigger addl ⟨.pipeline_param nm2 ty2, opstr, o2⟩ ts =
        .error "Use artifact as dsl.Condition operand is not implemented yet.") ∧
    (∀ v1 v2, resolve_value_or_reference addl c.operand1 = .ok v1 →
      resolve_value_or_reference addl c.operand2 = .ok v2 →
      emit_condition_trigger addl c ts =
        .ok { ts with trigger_condition := some (v1 ++ " " ++ c.operator ++ " " ++ v2) }) := by
  refine ⟨rfl, rfl, ?_, ?_, ?_⟩
  · intro h
    simp only [resolve_value_or_reference, h, if_true]
  · intro h
    simp only [emit_condition_trigger, resolve_value_or_reference, h,
      Bool.false_eq_true, if_false]
  · intro v1 v2 h1 h2
    simp only [emit_condition_trigger, h1, h2]

/-- Witness for C7 on the condition `metric-out == 0.9`: the parameter
operand renders with the string accessor, a whole condition renders into
the trigger predicate, and an artifact-typed operand is fatal. -/
theorem c7_condition_resolution_witness :
    resolve_value_or_reference (fun n => "pipelineparam--" ++ n)
        (.pipeline_param "metric-out" .string_type) =
      .ok ("inputs.parameters[" ++ squote ++ "pipelineparam--metric-out" ++ squote ++
            "].string_value") ∧
    emit_condition_trigger (fun n => "pipelineparam--" ++ n)
        ⟨.pipeline_param "model" (.artifact_type "Model"), "==", .str_value "x"⟩
        ⟨"t", "c", [], none, none, []⟩ =
      .error "Use artifact as dsl.Condition operand is not implemented yet." ∧
    emit_condition_trigger (fun n => "pipelineparam--" ++ n)
        ⟨.pipeline_param "metric-out" .string_type, "==", .other_value "0.9"⟩
        ⟨"t", "c", [], none, none, []⟩ =
      .ok ⟨"t", "c", [], none,
        some ("inputs.parameters[" ++ squote ++ "pipelineparam--metric-out" ++ squote ++
              "].string_value" ++ " == " ++ "0.9"), []⟩ := by
  refine ⟨?_, ?_, ?_⟩
  · exact (c7_condition_resolution (fun n => "pipelineparam--" ++ n) "" "" "metric-out"
      "==" "m" .string_type (.artifact_type "Model") (.str_value "x")
      ⟨.str_value "a", "==", .str_value "b"⟩ ⟨"t", "c", [], none, none, []⟩).2.2.1 rfl
  · exact (c7_condition_resolution (fun n => "pipelineparam--" ++ n) "" "" "metric-out"
      "==" "model" .string_type (.artifact_type "Model") (.str_value "x")
      ⟨.str_value "a", "==", .str_value "b"⟩ ⟨"t", "c", [], none, none, []⟩).2.2.2.1 rfl
  · exact (c7_condition_resolution (fun n => "pipelineparam--" ++ n) "" "" "metric-out"
      "==" "m" .string_type (.artifact_type "Model") (.str_value "x")
      ⟨.pipeline_param "metric-out" .string_type, "==", .other_value "0.9"⟩
      ⟨"t", "c", [], none, none, []⟩).2.2.2.2 _ "0.9" rfl rfl

/-- Claim C8: lowering a loop whose source is a compile-time literal
sequence inserts exactly one synthetic iterator component — registered
under `sanitize_component_name(loop.name + '-iterator')`, with the
component table otherwise unchanged — and exactly one extra task in the
loop's own dag body, whose task spec embeds the raw items order-preserved
with duplicates allowed and whose per-iteration item input is the
loop-argument input name; and the per-input rewrite of the loop-body task
specs redirects every input whose loop-argument name matches the withItems
pattern to that same per-iteration input name, never to the declared
source. -/
theorem c8_static_loop_iterator (addl sanitize_component_name sanitize_task_name :
      String → String)
    (loop_item_name_base : String) (group : ParallelForGroup)
    (cs : ComponentSpec) (comps : StrMap ComponentSpec)
    (is_withparams_arg is_withitems_arg is_loop_arguments_var : String → Bool)
    (get_subvar_name strip_task_name : String → String)
    (inp : String × TaskInputParameter)
    (hwi : group.items_is_pipeline_param = false) :
    (((insert_loop_iterator_component addl sanitize_component_name sanitize_task_name
          loop_item_name_base group cs comps).2
        (sanitize_component_name (group.name ++ "-iterator"))).isSome = true ∧
     (∀ k, k ≠ sanitize_component_name (group.name ++ "-iterator") →
        (insert_loop_iterator_component addl sanitize_component_name sanitize_task_name
            loop_item_name_base group cs comps).2 k = comps k)) ∧
    (((insert_loop_iterator_component addl sanitize_component_name sanitize_task_name
            loop_item_name_base group cs comps).1.dag_tasks
          (sanitize_task_name (group.name ++ "-iterator"))).map
        (fun t => (t.component_ref, t.parameter_iterator)) =
      some (sanitize_component_name (group.name ++ "-iterator"),
            some ⟨some group.raw_items, none, addl group.loop_args_full_name⟩) ∧
     (∀ k, k ≠ sanitize_task_name (group.name ++ "-iterator") →
        (insert_loop_iterator_component addl sanitize_component_name sanitize_task_name
            loop_item_name_base group cs comps).1.dag_tasks k = cs.dag_tasks k)) ∧
    (is_withparams_arg (loop_argument_name_of strip_task_name inp.2) = false →
     is_withitems_arg (loop_argument_name_of strip_task_name inp.2) = true →
     ∃ q, update_loop_input is_withparams_arg is_withitems_arg is_loop_arguments_var
            get_subvar_name addl strip_task_name loop_item_name_base group inp =
          .ok (inp.1, q) ∧
       q.component_input_parameter = some (addl group.loop_args_full_name)) := by
  refine ⟨⟨?_, ?_⟩, ?_, ?_⟩
  · simp only [insert_loop_iterator_component, hwi, Bool.false_eq_true, if_false,
      StrMap.set, beq_self_eq_true, if_true, Option.isSome_some]
  · intro k hk
    simp only [insert_loop_iterator_component, hwi, Bool.false_eq_true, if_false,
      StrMap.set]
    rw [if_neg (by simpa [beq_iff_eq] using hk)]
  · constructor
    · simp only [insert_loop_iterator_component, hwi, Bool.false_eq_true, if_false]
      simp [StrMap.set]
    · intro k hk
      simp only [insert_loop_iterator_component, hwi, Bool.false_eq_true, if_false,
        StrMap.set]
      rw [if_neg (by simpa [beq_iff_eq] using hk)]
  · intro h1 h2
    unfold update_loop_input
    simp only [h1, Bool.false_eq_true, if_false, h2, if_true]
    by_cases h3 : is_loop_arguments_var (loop_argument_name_of strip_task_name inp.2) = true
    · simp only [h3, if_true]
      exact ⟨_, rfl, rfl⟩
    · simp only [Bool.not_eq_true] at h3
      simp only [h3, Bool.false_eq_true, if_false]
      exact ⟨_, rfl, rfl⟩

/-- Witness for C8: a loop `loop-1` over the literal list
`["1", "2", "1"]` (three items, duplicates allowed) gets exactly one
iterator component and task embedding that list, and a body-task input
whose loop-argument name matches the withItems pattern is rewired to the
iterator's per-iteration input `pipelineparam--loop-item-param-7`. -/
theorem c8_static_loop_iterator_witness :
    (((insert_loop_iterator_component (fun s => "pipelineparam--" ++ s)
          (fun s => "comp-" ++ s) (fun s => "task-" ++ s) "loop-item"
          ⟨"loop-1", false, "loop-item-param-7", "pp", ["1", "2", "1"]⟩
          ⟨[("x", "STRING")], fun _ => none⟩ (fun _ => none)).2
        "comp-loop-1-iterator").isSome = true ∧
     (∀ k, k ≠ "comp-loop-1-iterator" →
        (insert_loop_iterator_component (fun s => "pipelineparam--" ++ s)
            (fun s => "comp-" ++ s) (fun s => "task-" ++ s) "loop-item"
            ⟨"loop-1", false, "loop-item-param-7", "pp", ["1", "2", "1"]⟩
            ⟨[("x", "STRING")], fun _ => none⟩ (fun _ => none)).2 k = none)) ∧
    (((insert_loop_iterator_component (fun s => "pipelineparam--" ++ s)
            (fun s => "comp-" ++ s) (fun s => "task-" ++ s) "loop-item"
            ⟨"loop-1", false, "loop-item-param-7", "pp", ["1", "2", "1"]⟩
            ⟨[("x", "STRING")], fun _ => none⟩ (fun _ => none)).1.dag_tasks
          "task-loop-1-iterator").map
        (fun t => (t.component_ref, t.parameter_iterator)) =
      some ("comp-loop-1-iterator",
            some ⟨some ["1", "2", "1"], none, "pipelineparam--loop-item-param-7"⟩) ∧
     (∀ k, k ≠ "task-loop-1-iterator" →
        (insert_loop_iterator_component (fun s => "pipelineparam--" ++ s)
            (fun s => "comp-" ++ s) (fun s => "task-" ++ s) "loop-item"
            ⟨"loop-1", false, "loop-item-param-7", "pp", ["1", "2", "1"]⟩
            ⟨[("x", "STRING")], fun _ => none⟩ (fun _ => none)).1.dag_tasks k = none)) ∧
    (∃ q, update_loop_input (fun _ => false) (fun s => s == "loop-item-param-7-loop-item")
            (fun _ => false) (fun s => s) (fun s => "pipelineparam--" ++ s) (fun s => s)
            "loop-item" ⟨"loop-1", false, "loop-item-param-7", "pp", ["1", "2", "1"]⟩
            ("a", ⟨some "loop-item-param-7-loop-item", none, none, none⟩) =
          .ok ("a", q) ∧
       q.component_input_parameter = some "pipelineparam--loop-item-param-7") := by
  have h := c8_static_loop_iterator (fun s => "pipelineparam--" ++ s)
    (fun s => "comp-" ++ s) (fun s => "task-" ++ s) "loop-item"
    ⟨"loop-1", false, "loop-item-param-7", "pp", ["1", "2", "1"]⟩
    ⟨[("x", "STRING")], fun _ => none⟩ (fun _ => none)
    (fun _ => false) (fun s => s == "loop-item-param-7-loop-item") (fun _ => false)
    (fun s => s) (fun s => s)
    ("a", ⟨some "loop-item-param-7-loop-item", none, none, none⟩) rfl
  exact ⟨h.1, h.2.1, h.2.2 rfl rfl⟩

/-! ## Tree lemmas for the sibling invariant (C4) -/

/-- Unfolding of `Group.allNames` through the accessors. -/
theorem Group.allNames_def (g : Group) :
    g.allNames = g.name :: (g.ops ++ g.children.allNames) := by
  cases g; rfl

/-- Every group's own name occurs in its name list. -/
theorem Group.name_mem_allNames (g : Group) : g.name ∈ g.allNames := by
  rw [Group.allNames_def]; exact List.mem_cons_self _ _

/-- Names of a member subtree occur in the forest's name list. -/
theorem Forest.mem_allNames_of_mem : ∀ (f : Forest) (g : Group), g ∈ f.toList →
    ∀ x ∈ g.allNames, x ∈ f.allNames
  | .nil => by intro g hg; simp [Forest.toList] at hg
  | .cons g0 gs => by
    intro g hg x hx
    simp only [Forest.toList] at hg
    rcases List.mem_cons.mp hg with rfl | h
    · exact List.mem_append_left _ hx
    · exact List.mem_append_right _ (Forest.mem_allNames_of_mem gs g h x hx)

/-- A member subtree of a name-distinct forest is name-distinct. -/
theorem Forest.nodup_of_mem : ∀ (f : Forest), f.allNames.Nodup →
    ∀ g ∈ f.toList, g.allNames.Nodup
  | .nil => by intro _ g hg; simp [Forest.toList] at hg
  | .cons g0 gs => by
    intro hn g hg
    simp only [Forest.toList] at hg
    simp only [Forest.allNames] at hn
    rcases List.mem_cons.mp hg with rfl | h
    · exact hn.of_append_left
    · exact Forest.nodup_of_mem gs hn.of_append_right g h

/-- In a name-distinct forest, two member subtrees with the same name are
the same subtree. -/
theorem Forest.eq_of_name_eq : ∀ (f : Forest), f.allNames.Nodup →
    ∀ a ∈ f.toList, ∀ b ∈ f.toList, a.name = b.name → a = b
  | .nil => by intro _ a ha; simp [Forest.toList] at ha
  | .cons g0 gs => by
    intro hn a ha b hb hab
    simp only [Forest.toList] at ha hb
    simp only [Forest.allNames] at hn
    have hdisj := (List.nodup_append.mp hn).2.2
    rcases List.mem_cons.mp ha with rfl | ha' <;> rcases List.mem_cons.mp hb with rfl | hb'
    · rfl
    · exfalso
      refine hdisj a.name_mem_allNames ?_
      rw [hab]
      exact Forest.mem_allNames_of_mem gs b hb' _ b.name_mem_allNames
    · exfalso
      refine hdisj b.name_mem_allNames ?_
      rw [← hab]
      exact Forest.mem_allNames_of_mem gs a ha' _ a.name_mem_allNames
    · exact Forest.eq_of_name_eq gs hn.of_append_right a ha' b hb' hab

/-- In a name-distinct forest, distinct member subtrees have disjoint name
lists. -/
theorem Forest.disjoint_of_ne : ∀ (f : Forest), f.allNames.Nodup →
    ∀ a ∈ f.toList, ∀ b ∈ f.toList, a ≠ b →
    ∀ x, x ∈ a.allNames → x ∈ b.allNames → False
  | .nil => by intro _ a ha; simp [Forest.toList] at ha
  | .cons g0 gs => by
    intro hn a ha b hb hne x hxa hxb
    simp only [Forest.toList] at ha hb
    simp only [Forest.allNames] at hn
    have hdisj := (List.nodup_append.mp hn).2.2
    rcases List.mem_cons.mp ha with rfl | ha' <;> rcases List.mem_cons.mp hb with rfl | hb'
    · exact hne rfl
    · exact hdisj hxa (Forest.mem_allNames_of_mem gs b hb' x hxb)
    · exact hdisj hxb (Forest.mem_allNames_of_mem gs a ha' x hxa)
    · exact Forest.disjoint_of_ne gs hn.of_append_right a ha' b hb' hne x hxa hxb

/-- Every valid path starts with the root group's own name. -/
theorem pathFrom_head {g : Group} {p : List String} (h : PathFrom g p) :
    ∃ t, p = g.name :: t := by
  cases h with
  | here => exact ⟨[], rfl⟩
  | op _ o ho => exact ⟨[o], rfl⟩
  | step _ sub p' hsub hp' => exact ⟨p', rfl⟩

/-- Every name on a valid path of `g` is a name of `g`'s subtree. -/
theorem pathFrom_mem_allNames {g : Group} {p : List String} (h : PathFrom g p) :
    ∀ x ∈ p, x ∈ g.allNames := by
  induction h with
  | here g0 =>
    intro x hx
    rw [List.mem_singleton.mp hx]
    exact g0.name_mem_allNames
  | op g0 o ho =>
    intro x hx
    rcases List.mem_cons.mp hx with rfl | hx'
    · exact g0.name_mem_allNames
    · rw [List.mem_singleton.mp hx']
      rw [Group.allNames_def]
      exact List.mem_cons_of_mem _ (List.mem_append_left _ ho)
  | step g0 sub p' hsub hp' ih =>
    intro x hx
    rcases List.mem_cons.mp hx with rfl | hx'
    · exact g0.name_mem_allNames
    · rw [Group.allNames_def]
      refine List.mem_cons_of_mem _ (List.mem_append_right _ ?_)
      exact Forest.mem_allNames_of_mem g0.children sub hsub x (ih x hx')

/-- Cons step of the zip-count common length. -/
theorem common_groups_len_cons (a b : String) (p q : List String) :
    common_groups_len (a :: p) (b :: q) =
      common_groups_len p q + (if (b == a) = true then 1 else 0) := by
  simp [common_groups_len, List.zip_cons_cons, List.countP_cons]

/-- The zip-count common length of a pair of all-distinct lists is zero. -/
theorem common_groups_len_eq_zero (p q : List String)
    (h : ∀ x ∈ p, ∀ y ∈ q, y ≠ x) : common_groups_len p q = 0 := by
  rw [common_groups_len, List.countP_eq_zero]
  intro a ha
  obtain ⟨h1, h2⟩ := List.of_mem_zip ha
  simp only [beq_iff_eq]
  exact h a.1 h1 a.2 h2

/-- The zip-count common length against the empty list is zero. -/
theorem common_groups_len_nil_left (q : List String) :
    common_groups_len [] q = 0 := by
  simp [common_groups_len]

/-- The zip-count common length against the empty second list is zero. -/
theorem common_groups_len_nil_right (p : List String) :
    common_groups_len p [] = 0 := by
  cases p <;> simp [common_groups_len]

mutual
/-- Master lemma for C4: in a name-distinct subtree, the two names found at
the computed common-length index of any two valid paths are distinct
siblings: direct children of one common group. -/
theorem group_sib : ∀ (g : Group), SibStatement g
  | .mk nm r dp ip ops c => by
    intro p q d u hn hp hq hd hu
    simp only [Group.allNames] at hn
    have hn1 : (ops ++ c.allNames).Nodup := (List.nodup_cons.mp hn).2
    have hdisj_oc : ∀ x ∈ ops, x ∈ c.allNames → False :=
      fun x hx hx' => (List.nodup_append.mp hn1).2.2 hx hx'
    have hcn : c.allNames.Nodup := hn1.of_append_right
    cases hp with
    | here =>
      obtain ⟨t, ht⟩ := pathFrom_head hq
      subst ht
      simp only [Group.name] at hd hu
      rw [common_groups_len_cons, common_groups_len_nil_left] at hd
      simp at hd
    | op _ o1 ho1 =>
      cases hq with
      | here =>
        simp only [Group.name] at hd hu
        rw [common_groups_len_cons, common_groups_len_nil_right] at hu
        simp at hu
      | op _ o2 ho2 =>
        simp only [Group.name] at hd hu
        by_cases ho : o2 = o1
        · subst ho
          rw [common_groups_len_cons, common_groups_len_cons,
            common_groups_len_nil_left] at hd
          simp at hd
        · have hbeq : (o2 == o1) = false := by
            simp only [beq_eq_false_iff_ne, ne_eq]
            exact ho
          rw [common_groups_len_cons, common_groups_len_cons,
            common_groups_len_nil_left, hbeq] at hd hu
          simp only [beq_self_eq_true, if_true, if_false] at hd hu
          norm_num at hd hu
          obtain rfl : o1 = d := by simpa using hd
          obtain rfl : o2 = u := by simpa using hu
          refine ⟨fun heq => ho heq.symm, Group.mk nm r dp ip ops c, SubG.refl _, ?_, ?_⟩
          · simp only [child_names, Group.ops]
            exact List.mem_append_left _ ho1
          · simp only [child_names, Group.ops]
            exact List.mem_append_left _ ho2
      | step _ sub2 q'' hsub2 hq2 =>
        simp only [Group.name] at hd hu
        simp only [Group.groups, Group.children] at hsub2
        obtain ⟨t2, ht2⟩ := pathFrom_head hq2
        have hq''names : ∀ y ∈ q'', y ∈ c.allNames := fun y hy =>
          Forest.mem_allNames_of_mem c sub2 hsub2 y (pathFrom_mem_allNames hq2 y hy)
        have hzero : common_groups_len [o1] q'' = 0 :=
          common_groups_len_eq_zero _ _ (fun x hx y hy hyx => by
            have hxo : x = o1 := List.mem_singleton.mp hx
            have hmem : y ∈ c.allNames := hq''names y hy
            rw [hyx, hxo] at hmem
            exact hdisj_oc o1 ho1 hmem)
        rw [common_groups_len_cons, hzero] at hd hu
        simp only [beq_self_eq_true, if_true, Nat.zero_add, List.getElem?_cons_succ,
          List.getElem?_cons_zero, Option.some.injEq] at hd hu
        obtain rfl : o1 = d := by simpa using hd
        have hu' : u = sub2.name := by
          rw [ht2] at hu
          simp only [List.getElem?_cons_zero, Option.some.injEq] at hu
          exact hu.symm
        subst hu'
        refine ⟨?_, Group.mk nm r dp ip ops c, SubG.refl _, ?_, ?_⟩
        · intro heq
          exact hdisj_oc o1 ho1
            (heq ▸ Forest.mem_allNames_of_mem c sub2 hsub2 _ sub2.name_mem_allNames)
        · simp only [child_names, Group.ops]
          exact List.mem_append_left _ ho1
        · simp only [child_names, Group.ops, Group.groups, Group.children]
          exact List.mem_append_right _ (List.mem_map_of_mem _ hsub2)
    | step _ sub1 p'' hsub1 hp1 =>
      cases hq with
      | here =>
        simp only [Group.name] at hd hu
        rw [common_groups_len_cons, common_groups_len_nil_right] at hu
        simp at hu
      | op _ o2 ho2 =>
        simp only [Group.name] at hd hu
        simp only [Group.groups, Group.children] at hsub1
        obtain ⟨t1, ht1⟩ := pathFrom_head hp1
        have hp''names : ∀ y ∈ p'', y ∈ c.allNames := fun y hy =>
          Forest.mem_allNames_of_mem c sub1 hsub1 y (pathFrom_mem_allNames hp1 y hy)
        have hzero : common_groups_len p'' [o2] = 0 :=
          common_groups_len_eq_zero _ _ (fun x hx y hy hyx => by
            have hyo : y = o2 := List.mem_singleton.mp hy
            have hmem : x ∈ c.allNames := hp''names x hx
            rw [← hyx, hyo] at hmem
            exact hdisj_oc o2 ho2 hmem)
        rw [common_groups_len_cons, hzero] at hd hu
        simp only [beq_self_eq_true, if_true, Nat.zero_add, List.getElem?_cons_succ,
          List.getElem?_cons_zero, Option.some.injEq] at hd hu
        obtain rfl : o2 = u := by simpa using hu
        have hd' : d = sub1.name := by
          rw [ht1] at hd
          simp only [List.getElem?_cons_zero, Option.some.injEq] at hd
          exact hd.symm
        subst hd'
        refine ⟨?_, Group.mk nm r dp ip ops c, SubG.refl _, ?_, ?_⟩
        · intro heq
          exact hdisj_oc o2 ho2
            (heq ▸ Forest.mem_allNames_of_mem c sub1 hsub1 _ sub1.name_mem_allNames)
        · simp only [child_names, Group.ops, Group.groups, Group.children]
          exact List.mem_append_right _ (List.mem_map_of_mem _ hsub1)
        · simp only [child_names, Group.ops]
          exact List.mem_append_left _ ho2
      | step _ sub2 q'' hsub2 hq2 =>
        simp only [Group.name] at hd hu
        simp only [Group.groups, Group.children] at hsub1 hsub2
        by_cases hsub : sub1 = sub2
        · subst hsub
          have hnodup1 : sub1.allNames.Nodup := Forest.nodup_of_mem c hcn sub1 hsub1
          rw [common_groups_len_cons] at hd hu
          simp only [beq_self_eq_true, if_true, List.getElem?_cons_succ] at hd hu
          obtain ⟨hne, G, hG, hdG, huG⟩ :=
            forest_sib c sub1 hsub1 p'' q'' d u hnodup1 hp1 hq2 hd hu
          exact ⟨hne, G, SubG.child _ sub1 G hsub1 hG, hdG, huG⟩
        · have hdisj2 : ∀ x ∈ p'', ∀ y ∈ q'', y ≠ x := fun x hx y hy hyx =>
            Forest.disjoint_of_ne c hcn sub1 hsub1 sub2 hsub2 hsub x
              (pathFrom_mem_allNames hp1 x hx) (hyx ▸ pathFrom_mem_allNames hq2 y hy)
          have hzero := common_groups_len_eq_zero _ _ hdisj2
          rw [common_groups_len_cons, hzero] at hd hu
          simp only [beq_self_eq_true, if_true, Nat.zero_add,
            List.getElem?_cons_succ] at hd hu
          obtain ⟨t1, ht1⟩ := pathFrom_head hp1
          obtain ⟨t2, ht2⟩ := pathFrom_head hq2
          rw [ht1] at hd
          rw [ht2] at hu
          simp only [List.getElem?_cons_zero, Option.some.injEq] at hd hu
          obtain rfl : sub1.name = d := hd
          obtain rfl : sub2.name = u := hu
          refine ⟨?_, Group.mk nm r dp ip ops c, SubG.refl _, ?_, ?_⟩
          · intro heq
            exact hsub (Forest.eq_of_name_eq c hcn sub1 hsub1 sub2 hsub2 heq)
          · simp only [child_names, Group.ops, Group.groups, Group.children]
            exact List.mem_append_right _ (List.mem_map_of_mem _ hsub1)
          · simp only [child_names, Group.ops, Group.groups, Group.children]
            exact List.mem_append_right _ (List.mem_map_of_mem _ hsub2)
/-- Forest version of `group_sib`: the sibling property holds for every
member subtree. -/
theorem forest_sib : ∀ (f : Forest), ∀ g ∈ f.toList, SibStatement g
  | .nil => by
    intro g hg
    simp [Forest.toList] at hg
  | .cons g0 gs => by
    intro g hg
    simp only [Forest.toList] at hg
    rcases List.mem_cons.mp hg with heq | h
    · rw [heq]; exact group_sib g0
    · exact forest_sib gs g h
end

mutual
/-- Every path recorded by the op-path map is a valid descent path. -/
theorem collect_op_paths_pathFrom : ∀ (cur : List String) (g : Group)
    (n : String) (p : List String), (n, p) ∈ collect_op_paths cur g →
    ∃ p', p = cur ++ p' ∧ PathFrom g p'
  | cur, .mk nm r dp ip ops c => by
    intro n p hmem
    simp only [collect_op_paths] at hmem
    rcases List.mem_append.mp hmem with hf | ho
    · obtain ⟨sub, hsub, p', hp', hpf⟩ :=
        collect_op_paths_forest_pathFrom (cur ++ [nm]) c n p hf
      refine ⟨nm :: p', ?_, ?_⟩
      · rw [hp']; simp
      · exact PathFrom.step _ sub p' hsub hpf
    · obtain ⟨o, ho', heq⟩ := List.mem_map.mp ho
      simp only [Prod.mk.injEq] at heq
      refine ⟨[nm, o], by rw [← heq.2], ?_⟩
      exact PathFrom.op _ o ho'
/-- Forest version of `collect_op_paths_pathFrom`. -/
theorem collect_op_paths_forest_pathFrom : ∀ (cur : List String) (f : Forest)
    (n : String) (p : List String), (n, p) ∈ collect_op_paths_forest cur f →
    ∃ sub, sub ∈ f.toList ∧ ∃ p', p = cur ++ p' ∧ PathFrom sub p'
  | _, .nil => by
    intro n p h
    simp [collect_op_paths_forest] at h
  | cur, .cons g gs => by
    intro n p h
    simp only [collect_op_paths_forest] at h
    rcases List.mem_append.mp h with h1 | h2
    · by_cases hrec : g.recursive_ref
      · simp only [hrec, if_true, List.mem_singleton, Prod.mk.injEq] at h1
        refine ⟨g, by simp [Forest.toList], [g.name], h1.2, PathFrom.here g⟩
      · obtain ⟨p', hp', hpf⟩ :=
          collect_op_paths_pathFrom cur g n p (by simpa [hrec] using h1)
        exact ⟨g, by simp [Forest.toList], p', hp', hpf⟩
    · obtain ⟨sub, hsub, p', hp', hpf⟩ := collect_op_paths_forest_pathFrom cur gs n p h2
      refine ⟨sub, ?_, p', hp', hpf⟩
      simp only [Forest.toList]
      exact List.mem_cons_of_mem _ hsub
end

mutual
/-- Every path recorded by the opsgroup-path map is a valid descent path. -/
theorem collect_group_paths_pathFrom : ∀ (cur : List String) (g : Group)
    (n : String) (p : List String), (n, p) ∈ collect_group_paths cur g →
    ∃ p', p = cur ++ p' ∧ PathFrom g p'
  | cur, .mk nm r dp ip ops c => by
    intro n p hmem
    simp only [collect_group_paths] at hmem
    obtain ⟨sub, hsub, p', hp', hpf⟩ :=
      collect_group_paths_forest_pathFrom (cur ++ [nm]) c n p hmem
    refine ⟨nm :: p', ?_, ?_⟩
    · rw [hp']; simp
    · exact PathFrom.step _ sub p' hsub hpf
/-- Forest version of `collect_group_paths_pathFrom`. -/
theorem collect_group_paths_forest_pathFrom : ∀ (cur : List String) (f : Forest)
    (n : String) (p : List String), (n, p) ∈ collect_group_paths_forest cur f →
    ∃ sub, sub ∈ f.toList ∧ ∃ p', p = cur ++ p' ∧ PathFrom sub p'
  | _, .nil => by
    intro n p h
    simp [collect_group_paths_forest] at h
  | cur, .cons g gs => by
    intro n p h
    simp only [collect_group_paths_forest] at h
    rcases List.mem_append.mp h with h1 | h2
    · by_cases hrec : g.recursive_ref
      · simp [hrec] at h1
      · simp only [hrec, if_false, Bool.false_eq_true, List.mem_cons, Prod.mk.injEq] at h1
        rcases h1 with ⟨-, hp⟩ | h1'
        · exact ⟨g, by simp [Forest.toList], [g.name], hp, PathFrom.here g⟩
        · obtain ⟨p', hp', hpf⟩ := collect_group_paths_pathFrom cur g n p h1'
          exact ⟨g, by simp [Forest.toList], p', hp', hpf⟩
    · obtain ⟨sub, hsub, p', hp', hpf⟩ :=
        collect_group_paths_forest_pathFrom cur gs n p h2
      refine ⟨sub, ?_, p', hp', hpf⟩
      simp only [Forest.toList]
      exact List.mem_cons_of_mem _ hsub
end

/-- A successful `paths_lookup` returns a recorded entry. -/
theorem paths_lookup_mem (entries : List (String × List String)) (n : String)
    (p : List String) (h : paths_lookup entries n = some p) :
    ∃ nm, (nm, p) ∈ entries := by
  unfold paths_lookup at h
  cases hfind : entries.find? (fun e => e.1 == n) with
  | none => rw [hfind] at h; cases h
  | some e =>
    rw [hfind] at h
    simp only [Option.map_some', Option.some.injEq] at h
    refine ⟨e.1, ?_⟩
    have := List.mem_of_find?_eq_some hfind
    rw [← h]
    exact this

/-- A successful two-map lookup over the maps collected from the tree
yields a valid descent path of the root group. -/
theorem lookup_groups_pathFrom (root : Group) (nm : String) (p : List String)
    (h : lookup_groups (paths_lookup (collect_op_paths [] root))
        (paths_lookup (collect_group_paths [] root)) nm = .ok p) :
    PathFrom root p := by
  unfold lookup_groups at h
  cases h1 : paths_lookup (collect_op_paths [] root) nm with
  | some gs =>
    rw [h1] at h
    simp only [Except.ok.injEq] at h
    obtain ⟨n', hmem⟩ := paths_lookup_mem _ _ _ h1
    obtain ⟨p', hp', hpf⟩ := collect_op_paths_pathFrom [] root n' gs hmem
    rw [← h]
    rw [hp']
    simpa using hpf
  | none =>
    rw [h1] at h
    cases h2 : paths_lookup (collect_group_paths [] root) nm with
    | some gs =>
      rw [h2] at h
      simp only [Except.ok.injEq] at h
      obtain ⟨n', hmem⟩ := paths_lookup_mem _ _ _ h2
      obtain ⟨p', hp', hpf⟩ := collect_group_paths_pathFrom [] root n' gs hmem
      rw [← h]
      rw [hp']
      simpa using hpf
    | none =>
      rw [h2] at h
      cases h

/-- Any edge successfully recorded by `dependency_edge` over the maps
collected from a name-distinct tree connects two distinct siblings. -/
theorem dependency_edge_sibling (root : Group) (hn : root.allNames.Nodup)
    (up down d u : String)
    (h : dependency_edge (paths_lookup (collect_op_paths [] root))
        (paths_lookup (collect_group_paths [] root)) up down = .ok (d, u)) :
    d ≠ u ∧ ∃ G, SubG root G ∧ d ∈ child_names G ∧ u ∈ child_names G := by
  unfold dependency_edge at h
  cases hq : lookup_groups (paths_lookup (collect_op_paths [] root))
      (paths_lookup (collect_group_paths [] root)) up with
  | error e =>
    have hua : get_uncommon_ancestors (paths_lookup (collect_op_paths [] root))
        (paths_lookup (collect_group_paths [] root)) up down = .error e := by
      unfold get_uncommon_ancestors
      rw [hq]
    rw [hua] at h
    simp at h
  | ok qup =>
    cases hp : lookup_groups (paths_lookup (collect_op_paths [] root))
        (paths_lookup (collect_group_paths [] root)) down with
    | error e =>
      have hua : get_uncommon_ancestors (paths_lookup (collect_op_paths [] root))
          (paths_lookup (collect_group_paths [] root)) up down = .error e := by
        unfold get_uncommon_ancestors
        rw [hq, hp]
      rw [hua] at h
      simp at h
    | ok pdown =>
      have hua : get_uncommon_ancestors (paths_lookup (collect_op_paths [] root))
          (paths_lookup (collect_group_paths [] root)) up down =
          .ok (qup.drop (common_groups_len qup pdown),
               pdown.drop (common_groups_len qup pdown)) := by
        unfold get_uncommon_ancestors
        rw [hq, hp]
      rw [hua] at h
      dsimp only at h
      cases hh1 : (pdown.drop (common_groups_len qup pdown)).head? with
      | none =>
        rw [hh1] at h
        simp at h
      | some d0 =>
        rw [hh1] at h
        cases hh2 : (qup.drop (common_groups_len qup pdown)).head? with
        | none =>
          rw [hh2] at h
          simp at h
        | some u0 =>
          rw [hh2] at h
          simp only [Except.ok.injEq, Prod.mk.injEq] at h
          obtain ⟨rfl, rfl⟩ := h
          rw [List.head?_drop] at hh1 hh2
          have hup : PathFrom root qup := lookup_groups_pathFrom root up qup hq
          have hdown : PathFrom root pdown := lookup_groups_pathFrom root down pdown hp
          obtain ⟨hne, G, hG, hu', hd'⟩ :=
            group_sib root qup pdown u0 d0 hn hup hdown hh2 hh1
          exact ⟨hne.symm, G, hG, hd', hu'⟩

/-- Every edge in a successful `edges_for_names` run was produced by
`dependency_edge`. -/
theorem edges_for_names_mem (task_names grp_names : List String)
    (opG grpG : String → Option (List String)) (down : String) :
    ∀ (names : List String) (es : List (String × String)),
      edges_for_names task_names grp_names opG grpG down names = .ok es →
      ∀ e ∈ es, ∃ m, dependency_edge opG grpG m down = .ok e := by
  intro names
  induction names with
  | nil =>
    intro es h e he
    simp only [edges_for_names, Except.ok.injEq] at h
    rw [← h] at he
    cases he
  | cons m rest ih =>
    intro es h e he
    by_cases hknown : (task_names.contains m || grp_names.contains m) = true
    · simp only [edges_for_names, hknown, if_true] at h
      cases h1 : dependency_edge opG grpG m down with
      | error e1 => rw [h1] at h; cases h
      | ok e1 =>
        rw [h1] at h
        cases h2 : edges_for_names task_names grp_names opG grpG down rest with
        | error e2 => rw [h2] at h; cases h
        | ok es2 =>
          rw [h2] at h
          simp only [Except.ok.injEq] at h
          rw [← h] at he
          rcases List.mem_cons.mp he with rfl | he'
          · exact ⟨m, h1⟩
          · exact ih es2 h2 e he'
    · simp only [edges_for_names, hknown, if_false, Bool.false_eq_true] at h
      cases h

/-- Every edge in a successful `edges_for_ops` run was produced by
`dependency_edge`. -/
theorem edges_for_ops_mem (task_names grp_names : List String)
    (opG grpG : String → Option (List String)) (cps : String → List Param) :
    ∀ (ops : List Op) (es : List (String × String)),
      edges_for_ops task_names grp_names opG grpG cps ops = .ok es →
      ∀ e ∈ es, ∃ m dn, dependency_edge opG grpG m dn = .ok e := by
  intro ops
  induction ops with
  | nil =>
    intro es h e he
    simp only [edges_for_ops, Except.ok.injEq] at h
    rw [← h] at he
    cases he
  | cons o rest ih =>
    intro es h e he
    cases h1 : edges_for_names task_names grp_names opG grpG o.name
        (upstream_names o (cps o.name)) with
    | error e1 =>
      simp only [edges_for_ops, h1] at h
      cases h
    | ok es1 =>
      simp only [edges_for_ops, h1] at h
      cases h2 : edges_for_ops task_names grp_names opG grpG cps rest with
      | error e2 => rw [h2] at h; cases h
      | ok es2 =>
        rw [h2] at h
        simp only [Except.ok.injEq] at h
        rw [← h] at he
        rcases List.mem_append.mp he with he1 | he2
        · obtain ⟨m, hm⟩ := edges_for_names_mem task_names grp_names opG grpG o.name
            _ es1 h1 e he1
          exact ⟨m, o.name, hm⟩
        · exact ih es2 h2 e he2

mutual
/-- Every edge in a successful `edges_for_group` run was produced by
`dependency_edge`. -/
theorem edges_for_group_mem : ∀ (task_names grp_names : List String)
    (opG grpG : String → Option (List String)) (cps : String → List Param)
    (g : Group) (es : List (String × String)),
    edges_for_group task_names grp_names opG grpG cps g = .ok es →
    ∀ e ∈ es, ∃ m dn, dependency_edge opG grpG m dn = .ok e
  | task_names, grp_names, opG, grpG, cps, .mk nm r dp ip ops c => by
    intro es h e he
    simp only [edges_for_group] at h
    cases h1 : edges_for_names task_names grp_names opG grpG nm
        (dp ++ (if r then ((ip ++ cps nm).filterMap Param.op_name) else [])) with
    | error e1 => rw [h1] at h; cases h
    | ok es1 =>
      rw [h1] at h
      cases h2 : edges_for_forest task_names grp_names opG grpG cps c with
      | error e2 => rw [h2] at h; cases h
      | ok es2 =>
        rw [h2] at h
        simp only [Except.ok.injEq] at h
        rw [← h] at he
        rcases List.mem_append.mp he with he1 | he2
        · obtain ⟨m, hm⟩ := edges_for_names_mem task_names grp_names opG grpG nm
            _ es1 h1 e he1
          exact ⟨m, nm, hm⟩
        · exact edges_for_forest_mem task_names grp_names opG grpG cps c es2 h2 e he2
/-- Forest version of `edges_for_group_mem`. -/
theorem edges_for_forest_mem : ∀ (task_names grp_names : List String)
    (opG grpG : String → Option (List String)) (cps : String → List Param)
    (f : Forest) (es : List (String × String)),
    edges_for_forest task_names grp_names opG grpG cps f = .ok es →
    ∀ e ∈ es, ∃ m dn, dependency_edge opG grpG m dn = .ok e
  | task_names, grp_names, opG, grpG, cps, .nil => by
    intro es h e he
    simp only [edges_for_forest, Except.ok.injEq] at h
    rw [← h] at he
    cases he
  | task_names, grp_names, opG, grpG, cps, .cons g gs => by
    intro es h e he
    simp only [edges_for_forest] at h
    cases h1 : edges_for_group task_names grp_names opG grpG cps g with
    | error e1 => rw [h1] at h; cases h
    | ok es1 =>
      rw [h1] at h
      cases h2 : edges_for_forest task_names grp_names opG grpG cps gs with
      | error e2 => rw [h2] at h; cases h
      | ok es2 =>
        rw [h2] at h
        simp only [Except.ok.injEq] at h
        rw [← h] at he
        rcases List.mem_append.mp he with he1 | he2
        · exact edges_for_group_mem task_names grp_names opG grpG cps g es1 h1 e he1
        · exact edges_for_forest_mem task_names grp_names opG grpG cps gs es2 h2 e he2
end

/-- Every edge of a successful `get_dependencies` run was produced by
`dependency_edge` for some upstream and downstream name. -/
theorem get_dependencies_mem (ops : List Op) (grp_names : List String)
    (opG grpG : String → Option (List String)) (cps : String → List Param)
    (root : Group) (es : List (String × String))
    (h : get_dependencies ops grp_names opG grpG cps root = .ok es) :
    ∀ e ∈ es, ∃ m dn, dependency_edge opG grpG m dn = .ok e := by
  intro e he
  unfold get_dependencies at h
  cases h1 : edges_for_ops (ops.map Op.name) grp_names opG grpG cps ops with
  | error e1 => rw [h1] at h; cases h
  | ok e1 =>
    rw [h1] at h
    cases h2 : edges_for_group (ops.map Op.name) grp_names opG grpG cps root with
    | error e2 => rw [h2] at h; cases h
    | ok e2 =>
      rw [h2] at h
      simp only [Except.ok.injEq] at h
      rw [← h] at he
      rcases List.mem_append.mp he with he1 | he2
      · exact edges_for_ops_mem (ops.map Op.name) grp_names opG grpG cps ops e1 h1 e he1
      · exact edges_for_group_mem (ops.map Op.name) grp_names opG grpG cps root e2 h2 e he2

/-- Claim C4: every dependency edge recorded by the dependency resolver
(over the upstream names drawn from explicit dependencies and from the
producing tasks of consumed parameters, condition parameters included) runs
from the first downstream uncommon-ancestor suffix name to the first
upstream uncommon-ancestor suffix name — which is how `dependency_edge`
records it — and, over the path maps collected from a name-distinct scope
tree, its two endpoints are distinct siblings: direct children of one
common group of the tree, i.e. of one dag body. -/
theorem c4_dependency_edges_are_siblings (root : Group) (ops : List Op)
    (grp_names : List String) (cps : String → List Param)
    (edges : List (String × String))
    (hn : root.allNames.Nodup)
    (h : get_dependencies ops grp_names (paths_lookup (collect_op_paths [] root))
          (paths_lookup (collect_group_paths [] root)) cps root = .ok edges) :
    ∀ d u, (d, u) ∈ edges →
      d ≠ u ∧ ∃ G, SubG root G ∧ d ∈ child_names G ∧ u ∈ child_names G := by
  intro d u hmem
  obtain ⟨m, dn, hedge⟩ := get_dependencies_mem ops grp_names _ _ cps root edges h _ hmem
  exact dependency_edge_sibling root hn m dn d u hedge

/-- Witness for C4: in a tree with ops `task-u` (under the root) and
`task-t` (inside group `g1`), task `task-t` consumes `task-u`'s output; the
recorded edge runs from `g1` to `task-u`, and both are direct children of
the root group. -/
theorem c4_dependency_edges_are_siblings_witness :
    ("g1" : String) ≠ "task-u" ∧
    ∃ G, SubG (.mk "root" false [] [] ["task-u"]
          (.cons (.mk "g1" false [] [] ["task-t"] .nil) .nil)) G ∧
      ("g1" : String) ∈ child_names G ∧ ("task-u" : String) ∈ child_names G := by
  refine c4_dependency_edges_are_siblings
    (.mk "root" false [] [] ["task-u"] (.cons (.mk "g1" false [] [] ["task-t"] .nil) .nil))
    [⟨"task-u", [], [], false⟩, ⟨"task-t", [⟨"out1", none, some "task-u"⟩], [], false⟩]
    ["root", "g1"] (fun _ => []) [("g1", "task-u")] (by decide) rfl "g1" "task-u" (by simp)

end KFP
